import Mathlib

/-!
# Verification of the Central Hub parameter system

A shallow embedding of the Central Hub's parameter, subscription, watcher,
action-queue and network-trigger logic (from `central_hub/components/base.py`,
`web_server.py`, `watcher.py`, `action_manager.py`, `network_actions.py` and
`central_hub/central_hub.py`), together with theorems settling the stated
properties of that code.
-/

namespace SmartHome

/-- Grid cell key `(row, col)`.  Python dict keys are arbitrary int pairs,
so we use `Int × Int` (no bounds restriction, mirroring `_values`). -/
abbrev Cell := Int × Int

/-! ## `IntParameter` (base.py lines 24-100)

`BaseParameter` stores values in the dict `_values : (row, col) -> value`;
`get_value` is `dict.get` (returns `None`, i.e. `none`, when absent).
`IntParameter.set_value` coerces with `int(...)` and clamps with
`max(min_val, min(max_val, value))` before delegating to the base class,
which stores the value unconditionally (no bounds check on `(row, col)`).
`IntParameter.__post_init__` fills every in-grid cell with `default_val`. -/

structure IntParam where
  min_val : Int
  max_val : Int
  default_val : Int
  read_only : Bool
  rows : Nat
  cols : Nat
  values : Cell → Option Int

/-- Models `IntParameter.__post_init__`: every in-range cell holds `default_val`;
no other key is present in the dict. -/
def IntParam.init (mn mx df : Int) (ro : Bool) (rows cols : Nat) : IntParam where
  min_val := mn
  max_val := mx
  default_val := df
  read_only := ro
  rows := rows
  cols := cols
  values := fun rc =>
    if 0 ≤ rc.1 ∧ rc.1 < (rows : Int) ∧ 0 ≤ rc.2 ∧ rc.2 < (cols : Int) then some df else none

/-- The clamp in `IntParameter.set_value`: `max(self.min_val, min(self.max_val, value))`. -/
def IntParam.clamp (p : IntParam) (v : Int) : Int :=
  max p.min_val (min p.max_val v)

/-- Models `IntParameter.set_value` followed by `BaseParameter.set_value`'s store:
the clamped value is written under `(row, col)` unconditionally. -/
def IntParam.setValue (p : IntParam) (row col v : Int) : IntParam :=
  { p with values := fun rc => if rc = (row, col) then some (p.clamp v) else p.values rc }

/-- Models `BaseParameter.get_value`: `self._values.get((row, col))`. -/
def IntParam.getValue (p : IntParam) (row col : Int) : Option Int :=
  p.values (row, col)

/-- A record of one `on_change` callback invocation: the callback receives
`(param, row, col, value, old_value)`; we record the registration id of the
callback together with those arguments (`old_value` may be `None`). -/
abbrev Invocation := Nat × Int × Int × Int × Option Int

/-- Models `IntParameter.set_value` together with the notification loop of
`BaseParameter.set_value`: computes the new parameter state and the list of
callback invocations performed (callbacks identified by registration ids,
invoked in registration order when `notify` holds and the stored value
changed, i.e. `old_value != value` after coercion and clamping). -/
def IntParam.setValueFull (p : IntParam) (cbs : List Nat) (row col v : Int)
    (notify : Bool) : IntParam × List Invocation :=
  let value := p.clamp v
  let old := p.values (row, col)
  let p' := { p with values := fun rc => if rc = (row, col) then some value else p.values rc }
  (p', if notify ∧ old ≠ some value then cbs.map (fun n => (n, row, col, value, old)) else [])

/-- A sequence of `set_value` writes `(row, col, v)` applied in order. -/
def IntParam.applySets (p : IntParam) (ops : List (Int × Int × Int)) : IntParam :=
  ops.foldl (fun q op => q.setValue op.1 op.2.1 op.2.2) p

/-- Range invariant: every stored value lies in `[min_val, max_val]`. -/
def IntParam.InRange (p : IntParam) : Prop :=
  ∀ r c w, p.values (r, c) = some w → p.min_val ≤ w ∧ w ≤ p.max_val

/-! ## The protocol `set_param` / `SET` handler (web_server.py lines 437-479)

After the parameter has been looked up, the handler rejects read-only
parameters with `{success: false, error: "parameter is read-only"}` before
any write; otherwise it calls `param.set_value(row, col, value)` and
returns `{success: true}`.  The result is the `(success, error)` pair
together with the parameter state after the request. -/

def handleSetParam (p : IntParam) (row col v : Int) : (Bool × Option String) × IntParam :=
  if p.read_only then ((false, some "parameter is read-only"), p)
  else ((true, none), p.setValue row col v)

/-! ## Remote-mirror `Parameter` (central_hub.py lines 49-70)

The dataclass built during discovery: `set_value` stores the pushed value
into `values[(row, col)]` with no type coercion and no min/max clamping;
`get_value` is `dict.get`.  Pushed values are arbitrary JSON scalars. -/

inductive PValue where
  | int (i : Int)
  | str (s : String)
  | bool (b : Bool)
deriving DecidableEq

structure RemoteParameter where
  param_id : Nat
  name : String
  param_type : String
  rows : Nat
  cols : Nat
  read_only : Bool
  min_val : Option ℚ := none
  max_val : Option ℚ := none
  values : Cell → Option PValue

/-- Models `Parameter.set_value`: `self.values[(row, col)] = value` — stored raw. -/
def RemoteParameter.setValue (p : RemoteParameter) (row col : Int) (v : PValue) :
    RemoteParameter :=
  { p with values := fun rc => if rc = (row, col) then some v else p.values rc }

/-- Models `Parameter.get_value`: `self.values.get((row, col))`. -/
def RemoteParameter.getValue (p : RemoteParameter) (row col : Int) : Option PValue :=
  p.values (row, col)

/-- A remote-mirror parameter as built by `_discover_params_of_type` for an
int parameter reporting `min=0, max=100`. -/
def discoveredIntMirror : RemoteParameter where
  param_id := 7
  name := "trigger"
  param_type := "int"
  rows := 1
  cols := 1
  read_only := false
  min_val := some 0
  max_val := some 100
  values := fun _ => none

/-! ## The NetworkActions trigger pipeline (network_actions.py lines 64-69, 116-122)

The `trigger` parameter is an `IntParameter` with `min_val = -1`,
`max_val = NUM_NETWORK_ACTIONS - 1 = 99`, `default_val = -1`.  An external
write of `k` is clamped by `IntParameter.set_value`; if the clamped value
differs from the stored one, `_on_trigger_change` runs: for `new_value >= 0`
it schedules `_execute_action(new_value)` and resets the trigger to `-1`
with `notify=False`.  `triggerWrite stored k` returns the stored trigger
value after the write and the slot whose execution was started (if any). -/

def NUM_NETWORK_ACTIONS : Nat := 100

def triggerWrite (stored k : Int) : Int × Option Int :=
  let v := max (-1) (min ((NUM_NETWORK_ACTIONS : Int) - 1) k)
  if stored ≠ v then
    if 0 ≤ v then ((-1 : Int), some v)
    else (v, none)
  else (v, none)

/-! ## The Watcher per-slot evaluation step (watcher.py lines 200-221)

For each slot the loop reads the expression (empty means skip), evaluates
it (Python `eval`, modelled as an oracle returning `Except`), compares the
result against `_prev_results.get(slot)`, fires the rising batch on a
`False -> True` transition and the falling batch on `True -> False`, then
records the result.  An exception during evaluation skips both the edge
checks and the recording.  The result is
`(new recorded result, rising fired, falling fired)`. -/

def evalSlotStep (prev : Option Bool) (res : Except String Bool) :
    Option Bool × Bool × Bool :=
  match res with
  | .error _ => (prev, false, false)
  | .ok result =>
    match prev with
    | none => (some result, false, false)
    | some p => (some result, !p && result, p && !result)

/-- The whole per-slot body including the `if not expr: continue` guard. -/
def slotTick (expr : String) (evalExpr : String → Except String Bool)
    (prev : Option Bool) : Option Bool × Bool × Bool :=
  if expr = "" then (prev, false, false)
  else evalSlotStep prev (evalExpr expr)

/-! ## ActionManager queue (action_manager.py lines 168-214)

`_queue_actions` stamps the k-th action of a batch with
`execute_at = current_time + cumulative_delay`, where `cumulative_delay`
accumulates `wait_after_ms / 1000.0` of the earlier actions, then pushes
onto a min-heap keyed by `execute_at`.  `_process_queue` peeks the minimum
and pops it only when `execute_at <= now`.  Times are modelled as exact
rationals (seconds), delays as rationals (milliseconds). -/

def stampActions (t : ℚ) : List ℚ → ℚ → List ℚ
  | [], _ => []
  | d :: ds, cum => (t + cum) :: stampActions t ds (cum + d / 1000)

/-- The `execute_at` stamps of a batch enqueued at time `t`. -/
def stamps (t : ℚ) (ds : List ℚ) : List ℚ := stampActions t ds 0

/-- Models `heapq.heappop`: removes an element with minimal `execute_at`. -/
def popMin : List ℚ → Option (ℚ × List ℚ)
  | [] => none
  | x :: xs =>
    match popMin xs with
    | none => some (x, xs)
    | some (m, rest) => if x ≤ m then some (x, xs) else some (m, x :: rest)

/-- The processing loop observed at a sequence of instants `nows`: at each
instant the minimal queued stamp is popped when it is `≤ now`.  Returns the
list of `(execute_at, pop time)` pairs in execution order. -/
def runQueue : List ℚ → List ℚ → List (ℚ × ℚ)
  | _, [] => []
  | q, now :: rest =>
    match popMin q with
    | none => runQueue q rest
    | some (m, q') =>
      if m ≤ now then (m, now) :: runQueue q' rest else runQueue q rest

/-! ## The `on_change` callback loop (base.py lines 44-59)

`BaseParameter.set_value` iterates `for callback in self._on_change_callbacks`
over the *live* list while `on_change` appends to that same list.  A Python
`for` over a list that is appended to during iteration also visits the
appended elements, so the iteration is equivalent to a queue: process the
head, and anything a callback registers goes to the end of the queue.
Callbacks are modelled by what they do to the callback list: `plain` leaves
it alone, `appender` registers new plain callbacks via `on_change`. -/

inductive CB where
  | plain (id : Nat)
  | appender (id : Nat) (news : List Nat)
deriving DecidableEq

def CB.cbId : CB → Nat
  | .plain i => i
  | .appender i _ => i

/-- Total number of callbacks that the callbacks of the list register. -/
def totalNews : List CB → Nat
  | [] => 0
  | .plain _ :: rest => totalNews rest
  | .appender _ news :: rest => news.length + totalNews rest

def runCbsFuel : Nat → List CB → List Nat
  | 0, _ => []
  | _ + 1, [] => []
  | n + 1, .plain i :: rest => i :: runCbsFuel n rest
  | n + 1, .appender i news :: rest => i :: runCbsFuel n (rest ++ news.map CB.plain)

/-- The ids invoked by the notification loop of `set_value`, in invocation
order, starting from the given registered list (the fuel
`l.length + totalNews l` is exactly the number of iterations performed). -/
def runCbs (l : List CB) : List Nat := runCbsFuel (l.length + totalNews l) l

/-! ## Parameter type lookup (base.py lines 257-278, web_server.py lines 353-391)

`Component.get_param_by_type_and_index` normalizes the requested type string
through `type_map` (accepting both `"str"` and `"string"` for
`ParameterType.STRING`) after lowercasing; the `get_param_info` handler
instead filters on `p.param_type.value == param_type`, a raw comparison with
the enum value (which is `"str"` for strings). -/

inductive ParameterType where
  | int
  | float
  | bool
  | string
deriving DecidableEq

/-- Models `ParameterType.value` — the enum values `'int' 'float' 'bool' 'str'`. -/
def ParameterType.value : ParameterType → String
  | .int => "int"
  | .float => "float"
  | .bool => "bool"
  | .string => "str"

structure ParamMeta where
  name : String
  param_id : Nat
  ptype : ParameterType
  rows : Nat
  cols : Nat
  read_only : Bool
deriving DecidableEq

/-- Models `param_type.lower()`. -/
def strLower (s : String) : String := ⟨s.data.map Char.toLower⟩

/-- The `type_map` dict of `get_param_by_type_and_index`. -/
def typeMap (s : String) : Option ParameterType :=
  if s = "int" then some .int
  else if s = "float" then some .float
  else if s = "bool" then some .bool
  else if s = "str" then some .string
  else if s = "string" then some .string
  else none

/-- The counting loop of `get_param_by_type_and_index`: return the `idx`-th
parameter of the target type (`count` starts at 0). -/
def findNthOfType (t : ParameterType) (idx : Int) : List ParamMeta → Int → Option ParamMeta
  | [], _ => none
  | p :: rest, count =>
    if p.ptype = t then
      if count = idx then some p else findNthOfType t idx rest (count + 1)
    else findNthOfType t idx rest count

def getParamByTypeAndIndex (params : List ParamMeta) (param_type : String)
    (idx : Int) : Option ParamMeta :=
  match typeMap (strLower param_type) with
  | none => none
  | some t => findNthOfType t idx params 0

/-- The `get_param_info` handler's filter:
`[p for p in comp.parameters.values() if p.param_type.value == param_type]`. -/
def getParamInfoTyped (params : List ParamMeta) (param_type : String) : List ParamMeta :=
  params.filter (fun p => p.ptype.value == param_type)

/-- Models `get_param_info` with `idx == -1`: the reported `count`. -/
def getParamInfoCount (params : List ParamMeta) (param_type : String) : Nat :=
  (getParamInfoTyped params param_type).length

/-- Models `get_param_info` with `idx >= 0`: the reported parameter metadata
(`none` models the `{'error': 'index out of range'}` response). -/
def getParamInfoAt (params : List ParamMeta) (param_type : String)
    (idx : Int) : Option ParamMeta :=
  let tp := getParamInfoTyped params param_type
  if idx < 0 ∨ (tp.length : Int) ≤ idx then none
  else tp[idx.toNat]?

/-! ## SubscriptionManager (web_server.py lines 40-87)

`_subscriptions : websocket -> set of (param_id, row, col)` and
`_param_subscribers : (param_id, row, col) -> set of websockets`.
Python dicts are modelled as functions into `Option` (`none` = key absent),
Python sets as duplicate-free lists (`listAdd` / `listDiscard` mirror
`set.add` / `set.discard`). -/

abbrev WSock := Nat
abbrev SKey := Nat × Nat × Nat

def listAdd {β : Type} [DecidableEq β] (x : β) (l : List β) : List β :=
  if x ∈ l then l else l ++ [x]

def listDiscard {β : Type} [DecidableEq β] (x : β) (l : List β) : List β :=
  l.filter (· ≠ x)

def fupdate {κ γ : Type} [DecidableEq κ] (m : κ → Option γ) (k : κ)
    (v : Option γ) : κ → Option γ :=
  fun k' => if k' = k then v else m k'

structure SubscriptionManager where
  subscriptions : WSock → Option (List SKey)
  paramSubscribers : SKey → Option (List WSock)

def SubscriptionManager.initial : SubscriptionManager where
  subscriptions := fun _ => none
  paramSubscribers := fun _ => none

/-- Models `SubscriptionManager.subscribe`. -/
def SubscriptionManager.subscribe (st : SubscriptionManager) (ws : WSock)
    (key : SKey) : SubscriptionManager where
  subscriptions :=
    match st.subscriptions ws with
    | none => fupdate st.subscriptions ws (some (listAdd key []))
    | some l => fupdate st.subscriptions ws (some (listAdd key l))
  paramSubscribers :=
    match st.paramSubscribers key with
    | none => fupdate st.paramSubscribers key (some (listAdd ws []))
    | some t => fupdate st.paramSubscribers key (some (listAdd ws t))

/-- The discard-and-cleanup performed on `_param_subscribers[key]` by both
`unsubscribe` and `remove_client`: discard `ws`, delete the key if the set
became empty, leave an absent key absent. -/
def cleanupVal (ws : WSock) : Option (List WSock) → Option (List WSock)
  | none => none
  | some t =>
    let t' := listDiscard ws t
    if t' = [] then none else some t'

def cleanupKey (ws : WSock) (key : SKey) (m : SKey → Option (List WSock)) :
    SKey → Option (List WSock) :=
  match m key with
  | none => m
  | some t => fupdate m key (cleanupVal ws (some t))

/-- Models `SubscriptionManager.unsubscribe`. -/
def SubscriptionManager.unsubscribe (st : SubscriptionManager) (ws : WSock)
    (key : SKey) : SubscriptionManager where
  subscriptions :=
    match st.subscriptions ws with
    | none => st.subscriptions
    | some l => fupdate st.subscriptions ws (some (listDiscard key l))
  paramSubscribers := cleanupKey ws key st.paramSubscribers

/-- Models `SubscriptionManager.remove_client`. -/
def SubscriptionManager.removeClient (st : SubscriptionManager) (ws : WSock) :
    SubscriptionManager :=
  match st.subscriptions ws with
  | none => st
  | some keys =>
    { subscriptions := fupdate st.subscriptions ws none
      paramSubscribers := keys.foldl (fun m key => cleanupKey ws key m) st.paramSubscribers }

inductive SubOp where
  | sub (ws : WSock) (key : SKey)
  | unsub (ws : WSock) (key : SKey)
  | remove (ws : WSock)

def SubscriptionManager.applyOp (st : SubscriptionManager) : SubOp → SubscriptionManager
  | .sub ws key => st.subscribe ws key
  | .unsub ws key => st.unsubscribe ws key
  | .remove ws => st.removeClient ws

def SubscriptionManager.applyOps (ops : List SubOp) : SubscriptionManager :=
  ops.foldl SubscriptionManager.applyOp SubscriptionManager.initial

/-- Holds when `key ∈ _subscriptions[ws]`. -/
def SubscriptionManager.memSub (st : SubscriptionManager) (ws : WSock) (key : SKey) : Prop :=
  ∃ l, st.subscriptions ws = some l ∧ key ∈ l

/-- Holds when `ws ∈ _param_subscribers[key]`. -/
def SubscriptionManager.memPS (st : SubscriptionManager) (ws : WSock) (key : SKey) : Prop :=
  ∃ t, st.paramSubscribers key = some t ∧ ws ∈ t

/-- The bidirectional-consistency invariant together with "no key maps to an
empty subscriber set". -/
def SubscriptionManager.Inv (st : SubscriptionManager) : Prop :=
  (∀ ws key, st.memSub ws key ↔ st.memPS ws key)
  ∧ (∀ key t, st.paramSubscribers key = some t → t ≠ [])

/-! ## Helper lemmas -/

@[simp] theorem IntParam.setValue_min_val (p : IntParam) (r c v : Int) :
    (p.setValue r c v).min_val = p.min_val := rfl

@[simp] theorem IntParam.setValue_max_val (p : IntParam) (r c v : Int) :
    (p.setValue r c v).max_val = p.max_val := rfl

@[simp] theorem IntParam.setValue_read_only (p : IntParam) (r c v : Int) :
    (p.setValue r c v).read_only = p.read_only := rfl

theorem IntParam.applySets_min_val (p : IntParam) (ops : List (Int × Int × Int)) :
    (p.applySets ops).min_val = p.min_val := by
  induction ops generalizing p with
  | nil => rfl
  | cons op rest ih => simpa [IntParam.applySets] using ih (p.setValue op.1 op.2.1 op.2.2)

theorem IntParam.applySets_max_val (p : IntParam) (ops : List (Int × Int × Int)) :
    (p.applySets ops).max_val = p.max_val := by
  induction ops generalizing p with
  | nil => rfl
  | cons op rest ih => simpa [IntParam.applySets] using ih (p.setValue op.1 op.2.1 op.2.2)

/-- The clamped value lies in `[min_val, max_val]` as soon as
`min_val ≤ max_val`. -/
theorem IntParam.clamp_mem (p : IntParam) (h : p.min_val ≤ p.max_val) (v : Int) :
    p.min_val ≤ p.clamp v ∧ p.clamp v ≤ p.max_val := by
  unfold IntParam.clamp
  constructor
  · exact le_max_left _ _
  · exact max_le h (le_trans (min_le_left _ _) le_rfl)

theorem IntParam.setValue_inRange (p : IntParam) (h : p.InRange)
    (hmm : p.min_val ≤ p.max_val) (r c v : Int) : (p.setValue r c v).InRange := by
  intro r' c' w hw
  simp only [IntParam.setValue] at hw
  by_cases hrc : ((r', c') : Cell) = (r, c)
  · simp only [hrc, if_pos rfl] at hw
    cases hw
    exact p.clamp_mem hmm v
  · simp only [if_neg hrc] at hw
    exact h r' c' w hw

theorem IntParam.applySets_inRange (p : IntParam) (h : p.InRange)
    (hmm : p.min_val ≤ p.max_val) (ops : List (Int × Int × Int)) :
    (p.applySets ops).InRange := by
  induction ops generalizing p with
  | nil => exact h
  | cons op rest ih =>
      simp only [IntParam.applySets, List.foldl_cons]
      exact ih _ (p.setValue_inRange h hmm op.1 op.2.1 op.2.2) hmm

theorem IntParam.init_inRange (mn mx df : Int) (ro : Bool) (rows cols : Nat)
    (h1 : mn ≤ df) (h2 : df ≤ mx) : (IntParam.init mn mx df ro rows cols).InRange := by
  intro r c w hw
  simp only [IntParam.init] at hw
  split at hw
  · cases hw; exact ⟨h1, h2⟩
  · cases hw

/-- Writes never delete keys: a cell that is defined stays defined. -/
theorem IntParam.applySets_defined (p : IntParam) (ops : List (Int × Int × Int))
    (r c : Int) (h : (p.getValue r c).isSome) :
    ((p.applySets ops).getValue r c).isSome := by
  induction ops generalizing p with
  | nil => exact h
  | cons op rest ih =>
      simp only [IntParam.applySets, List.foldl_cons]
      apply ih
      simp only [IntParam.setValue, IntParam.getValue]
      by_cases hrc : ((r, c) : Cell) = (op.1, op.2.1)
      · simp [hrc]
      · simp only [if_neg hrc]
        exact h

theorem IntParam.getValue_setValue_self (p : IntParam) (r c v : Int) :
    (p.setValue r c v).getValue r c = some (p.clamp v) := by
  simp [IntParam.setValue, IntParam.getValue]

theorem IntParam.getValue_setValue_other (p : IntParam) (r c v r' c' : Int)
    (h : ((r', c') : Cell) ≠ (r, c)) :
    (p.setValue r c v).getValue r' c' = p.getValue r' c' := by
  simp [IntParam.setValue, IntParam.getValue, h]

theorem IntParam.applySets_getValue_untouched (ops : List (Int × Int × Int))
    (p : IntParam) (r c : Int) (h : ∀ op ∈ ops, (op.1, op.2.1) ≠ ((r, c) : Cell)) :
    (p.applySets ops).getValue r c = p.getValue r c := by
  induction ops generalizing p with
  | nil => rfl
  | cons op rest ih =>
      simp only [IntParam.applySets, List.foldl_cons]
      rw [show (rest.foldl (fun q o => q.setValue o.1 o.2.1 o.2.2)
            (p.setValue op.1 op.2.1 op.2.2)) = ((p.setValue op.1 op.2.1 op.2.2).applySets rest)
          from rfl]
      rw [ih _ (fun o ho => h o (List.mem_cons_of_mem _ ho))]
      exact p.getValue_setValue_other _ _ _ r c
        fun hc => h op (List.mem_cons_self _ _) (by rw [hc])

/-! ## Claim theorems -/

/-- C1 counterexample: the remote-mirror `Parameter` built during discovery
(dataclass `Parameter` in central_hub.py) performs no clamping: writing 150
into a mirror whose discovered bounds are `min=0, max=100` stores and
returns 150, which exceeds the declared maximum, so the claimed invariant
`min ≤ v ≤ max` fails for remote-mirror parameters. -/
theorem remote_mirror_stores_out_of_range :
    (discoveredIntMirror.setValue 0 0 (PValue.int 150)).getValue 0 0
      = some (PValue.int 150)
    ∧ discoveredIntMirror.min_val = some 0
    ∧ discoveredIntMirror.max_val = some 100
    ∧ ¬ ((150 : ℚ) ≤ 100) := by
  refine ⟨by decide, rfl, rfl, by norm_num⟩

/-- C1 (amended): for the *local* typed parameters — here `IntParameter` —
with a default value inside `[min, max]`: every stored value after any
sequence of `set_value` calls lies in `[min, max]`, every in-grid cell is
defined (returns `some` value of the declared type) at every instant after
construction, and a protocol `set_param` of 150 on an int parameter with
`min=0, max=100` returns `{success: true}` and stores the clamped value
100.  (The remote-mirror `Parameter` objects are excluded: they store
pushed values unclamped.) -/
theorem intParam_range_invariant (mn mx df : Int) (ro : Bool) (rows cols : Nat)
    (ops : List (Int × Int × Int)) (h1 : mn ≤ df) (h2 : df ≤ mx) :
    (∀ r c w, ((IntParam.init mn mx df ro rows cols).applySets ops).getValue r c = some w →
        mn ≤ w ∧ w ≤ mx)
    ∧ (∀ r c, 0 ≤ r ∧ r < (rows : Int) ∧ 0 ≤ c ∧ c < (cols : Int) →
        ∃ w, ((IntParam.init mn mx df ro rows cols).applySets ops).getValue r c = some w
          ∧ mn ≤ w ∧ w ≤ mx)
    ∧ handleSetParam (IntParam.init 0 100 0 false 1 1) 0 0 150
        = ((true, none), (IntParam.init 0 100 0 false 1 1).setValue 0 0 150)
    ∧ ((IntParam.init 0 100 0 false 1 1).setValue 0 0 150).getValue 0 0 = some 100 := by
  have hrange : ∀ r c w,
      ((IntParam.init mn mx df ro rows cols).applySets ops).getValue r c = some w →
        mn ≤ w ∧ w ≤ mx := by
    intro r c w hw
    have hin := (IntParam.init mn mx df ro rows cols).applySets_inRange
      (IntParam.init_inRange mn mx df ro rows cols h1 h2) (le_trans h1 h2) ops
    have := hin r c w hw
    rwa [IntParam.applySets_min_val, IntParam.applySets_max_val] at this
  refine ⟨hrange, ?_, rfl, by decide⟩
  intro r c hrc
  have hs : (((IntParam.init mn mx df ro rows cols).applySets ops).getValue r c).isSome := by
    apply IntParam.applySets_defined
    simp only [IntParam.init, IntParam.getValue]
    rw [if_pos hrc]
    rfl
  obtain ⟨w, hw⟩ := Option.isSome_iff_exists.mp hs
  exact ⟨w, hw, hrange r c w hw⟩

/-- Witness for C1 at a concrete instance. -/
theorem intParam_range_invariant_witness :
    ((0 : Int) ≤ 0 ∧ (0 : Int) ≤ 100)
    ∧ ((0 : Int) ≤ 100 ∧ (100 : Int) ≤ 100)
    ∧ (∃ w, ((IntParam.init 0 100 0 false 1 1).applySets [(0, 0, 150)]).getValue 0 0 = some w
        ∧ 0 ≤ w ∧ w ≤ 100)
    ∧ handleSetParam (IntParam.init 0 100 0 false 1 1) 0 0 150
        = ((true, none), (IntParam.init 0 100 0 false 1 1).setValue 0 0 150) :=
  ⟨⟨by decide, by decide⟩,
   (intParam_range_invariant 0 100 0 false 1 1 [(0, 0, 150)] (by decide) (by decide)).1
     0 0 100 (by decide),
   (intParam_range_invariant 0 100 0 false 1 1 [(0, 0, 150)] (by decide) (by decide)).2.1
     0 0 (by decide),
   (intParam_range_invariant 0 100 0 false 1 1 [] (by decide) (by decide)).2.2.1⟩

/-- C2: a `set_value` with `notify=true` whose coerced-and-clamped value
equals the previously stored value invokes no change subscriber; when it
differs, every registered subscriber is invoked in registration order with
`(param, row, col, new, old)`. -/
theorem setValue_callback_invocations (p : IntParam) (cbs : List Nat) (r c v : Int) :
    (p.getValue r c = some (p.clamp v) → (p.setValueFull cbs r c v true).2 = [])
    ∧ (p.getValue r c ≠ some (p.clamp v) →
        (p.setValueFull cbs r c v true).2
          = cbs.map (fun n => (n, r, c, p.clamp v, p.getValue r c))) := by
  constructor
  · intro h
    simp only [IntParam.getValue] at h
    simp [IntParam.setValueFull, h]
  · intro h
    simp only [IntParam.getValue] at h
    simp [IntParam.setValueFull, IntParam.getValue, h]

/-- Witness for C2: an unchanged write fires nothing; a changed one fires
both registered callbacks in order. -/
theorem setValue_callback_invocations_witness :
    ((IntParam.init 0 100 0 false 1 1).setValueFull [3, 7] 0 0 0 true).2 = []
    ∧ ((IntParam.init 0 100 0 false 1 1).setValueFull [3, 7] 0 0 5 true).2
        = [(3, 0, 0, 5, some 0), (7, 0, 0, 5, some 0)] :=
  ⟨(setValue_callback_invocations (IntParam.init 0 100 0 false 1 1) [3, 7] 0 0 0).1
     (by decide),
   by
    have h := (setValue_callback_invocations (IntParam.init 0 100 0 false 1 1) [3, 7] 0 0 5).2
      (by decide)
    rw [h]; decide⟩

/-- C5: the protocol `set_param` / `SET` handler rejects a read-only
parameter with `{success: false, error: "parameter is read-only"}`, leaving
every stored cell unchanged, while an internal (direct) `set_value` write on
the same parameter succeeds and stores the clamped value. -/
theorem setParam_read_only_rejected (p : IntParam) (r c v : Int)
    (h : p.read_only = true) :
    handleSetParam p r c v = ((false, some "parameter is read-only"), p)
    ∧ (∀ r' c', (handleSetParam p r c v).2.getValue r' c' = p.getValue r' c')
    ∧ (p.setValue r c v).getValue r c = some (p.clamp v) := by
  have h1 : handleSetParam p r c v = ((false, some "parameter is read-only"), p) := by
    simp [handleSetParam, h]
  exact ⟨h1, fun r' c' => by rw [h1], p.getValue_setValue_self r c v⟩

/-- Witness for C5 on a read-only parameter shaped like `queue_length`. -/
theorem setParam_read_only_rejected_witness :
    (IntParam.init 0 999999 0 true 1 1).read_only = true
    ∧ handleSetParam (IntParam.init 0 999999 0 true 1 1) 0 0 5
        = ((false, some "parameter is read-only"), IntParam.init 0 999999 0 true 1 1) :=
  ⟨rfl, (setParam_read_only_rejected (IntParam.init 0 999999 0 true 1 1) 0 0 5 rfl).1⟩

/-- C6 counterexample: a write of 150 (out of range above) to the idle
trigger is *not* refused: the clamp maps it to 99 and slot 99 is started. -/
theorem trigger_overrange_starts_slot :
    triggerWrite (-1) 150 = (-1, some 99) ∧ ¬ ((150 : Int) < 100) := by
  exact ⟨by decide, by decide⟩

/-- C6 (amended): on the idle trigger (stored value `-1`), a write of
`k ∈ [0, 100)` starts execution of slot `k` and resets the trigger to `-1`
without re-notifying; a write of `-1` starts no slot; a write below `-1` is
clamped to `-1` and starts no slot; a write of `k ≥ 100` is clamped to `99`
and starts slot 99. -/
theorem trigger_write_behavior (k : Int) :
    (0 ≤ k ∧ k < 100 → triggerWrite (-1) k = (-1, some k))
    ∧ triggerWrite (-1) (-1) = (-1, none)
    ∧ (k < -1 → triggerWrite (-1) k = (-1, none))
    ∧ (100 ≤ k → triggerWrite (-1) k = (-1, some 99)) := by
  refine ⟨?_, by decide, ?_, ?_⟩
  · rintro ⟨h1, h2⟩
    have hv : max (-1) (min ((NUM_NETWORK_ACTIONS : Int) - 1) k) = k := by
      simp only [NUM_NETWORK_ACTIONS]; omega
    simp only [triggerWrite, hv]
    rw [if_pos (by omega : (-1 : Int) ≠ k), if_pos h1]
  · intro h
    have hv : max (-1) (min ((NUM_NETWORK_ACTIONS : Int) - 1) k) = -1 := by
      simp only [NUM_NETWORK_ACTIONS]; omega
    simp only [triggerWrite, hv]
    rw [if_neg (by omega : ¬ (-1 : Int) ≠ -1)]
  · intro h
    have hv : max (-1) (min ((NUM_NETWORK_ACTIONS : Int) - 1) k) = 99 := by
      simp only [NUM_NETWORK_ACTIONS]; omega
    simp only [triggerWrite, hv]
    rw [if_pos (by omega : (-1 : Int) ≠ 99), if_pos (by omega : (0 : Int) ≤ 99)]

/-- Witness for C6 at concrete writes. -/
theorem trigger_write_behavior_witness :
    ((0 : Int) ≤ 5 ∧ (5 : Int) < 100) ∧ triggerWrite (-1) 5 = (-1, some 5)
    ∧ ((-7 : Int) < -1) ∧ triggerWrite (-1) (-7) = (-1, none) :=
  ⟨⟨by decide, by decide⟩, (trigger_write_behavior 5).1 ⟨by decide, by decide⟩,
   by decide, (trigger_write_behavior (-7)).2.2.1 (by decide)⟩

/-- C9: `BaseParameter.set_value` performs no bounds check on `(row, col)`:
a write at any integer pair (also outside the declared grid) succeeds and
stores the coerced-and-clamped value, a subsequent `get_value` there returns
it, and `get_value` of a never-written out-of-range cell returns `None`. -/
theorem setValue_no_bounds_check (mn mx df : Int) (ro : Bool) (rows cols : Nat)
    (ops : List (Int × Int × Int)) (r c v r' c' : Int)
    (hout : ¬ (0 ≤ r' ∧ r' < (rows : Int) ∧ 0 ≤ c' ∧ c' < (cols : Int)))
    (hnw : ∀ op ∈ ops, (op.1, op.2.1) ≠ ((r', c') : Cell)) :
    (((IntParam.init mn mx df ro rows cols).applySets ops).setValue r c v).getValue r c
      = some (((IntParam.init mn mx df ro rows cols).applySets ops).clamp v)
    ∧ ((IntParam.init mn mx df ro rows cols).applySets ops).getValue r' c' = none := by
  constructor
  · exact IntParam.getValue_setValue_self _ r c v
  · rw [IntParam.applySets_getValue_untouched ops _ r' c' hnw]
    simp [IntParam.init, IntParam.getValue, hout]

/-- Witness for C9: a write at `(-2, 7)` on a 1×1 grid succeeds and is
readable; the never-written out-of-range cell `(5, 0)` reads `None`. -/
theorem setValue_no_bounds_check_witness :
    (¬ ((0 : Int) ≤ 5 ∧ (5 : Int) < 1 ∧ (0 : Int) ≤ 0 ∧ (0 : Int) < 1))
    ∧ (((IntParam.init 0 100 0 false 1 1).applySets [(0, 0, 3)]).setValue (-2) 7 150).getValue
        (-2) 7 = some (((IntParam.init 0 100 0 false 1 1).applySets [(0, 0, 3)]).clamp 150)
    ∧ ((IntParam.init 0 100 0 false 1 1).applySets [(0, 0, 3)]).getValue 5 0 = none :=
  ⟨by decide,
   (setValue_no_bounds_check 0 100 0 false 1 1 [(0, 0, 3)] (-2) 7 150 5 0
      (by decide) (by decide)).1,
   (setValue_no_bounds_check 0 100 0 false 1 1 [(0, 0, 3)] (-2) 7 150 5 0
      (by decide) (by decide)).2⟩

/-- C3: on a watcher tick the rising batch fires iff the previously recorded
result was `false` and the current evaluation is `true`; the falling batch
fires iff the previous was `true` and the current `false`; a slot with no
recorded result fires neither; an evaluation error leaves the recorded
result unchanged and fires no edge; an empty expression is skipped. -/
theorem watcher_edge_detection (prev : Option Bool) (res : Except String Bool) :
    ((evalSlotStep prev res).2.1 = true ↔ prev = some false ∧ res = Except.ok true)
    ∧ ((evalSlotStep prev res).2.2 = true ↔ prev = some true ∧ res = Except.ok false)
    ∧ (prev = none → (evalSlotStep prev res).2 = (false, false))
    ∧ (∀ e, res = Except.error e → evalSlotStep prev res = (prev, false, false))
    ∧ (∀ f, slotTick "" f prev = (prev, false, false)) := by
  cases res with
  | error e =>
      cases prev with
      | none => simp [evalSlotStep, slotTick]
      | some p => cases p <;> simp [evalSlotStep, slotTick]
  | ok b =>
      cases prev with
      | none => cases b <;> simp [evalSlotStep, slotTick]
      | some p => cases p <;> cases b <;> simp [evalSlotStep, slotTick]

/-- Witness for C3: a rising edge, the first-ever evaluation, a failed
evaluation. -/
theorem watcher_edge_detection_witness :
    (evalSlotStep (some false) (Except.ok true)).2.1 = true
    ∧ (evalSlotStep none (Except.ok true)).2 = (false, false)
    ∧ evalSlotStep (some true) (Except.error "bad") = (some true, false, false) :=
  ⟨(watcher_edge_detection (some false) (Except.ok true)).1.mpr ⟨rfl, rfl⟩,
   (watcher_edge_detection none (Except.ok true)).2.2.1 rfl,
   (watcher_edge_detection (some true) (Except.error "bad")).2.2.2.1 "bad" rfl⟩

theorem totalNews_append (a b : List CB) :
    totalNews (a ++ b) = totalNews a + totalNews b := by
  induction a with
  | nil => simp [totalNews]
  | cons c rest ih =>
      cases c with
      | plain i => simp [totalNews, ih]
      | appender i news => simp [totalNews, ih]; omega

theorem totalNews_map_plain (l : List Nat) : totalNews (l.map CB.plain) = 0 := by
  induction l with
  | nil => rfl
  | cons x xs ih => simpa [totalNews] using ih

theorem runCbsFuel_plains_front (l1 : List Nat) :
    ∀ (n : Nat) (rest : List CB),
      runCbsFuel (l1.length + n) (l1.map CB.plain ++ rest) = l1 ++ runCbsFuel n rest := by
  induction l1 with
  | nil => intro n rest; simp
  | cons x xs ih =>
      intro n rest
      have hl : (x :: xs).length + n = (xs.length + n) + 1 := by simp; omega
      rw [hl]
      simp only [List.map_cons, List.cons_append, runCbsFuel, List.append_eq]
      rw [ih n rest]

/-- C7 counterexample: the callback list is iterated live, not as a
snapshot: a callback that registers another callback via `on_change` during
notification causes the newly registered callback to be invoked for the
same change (`[0, 1]`, not `[0]`). -/
theorem live_callback_registration_invoked :
    runCbs [CB.appender 0 [1]] = [0, 1] ∧ 1 ∈ runCbs [CB.appender 0 [1]] := by
  exact ⟨by decide, by decide⟩

/-- C7 (amended): the callback list is iterated live; callbacks registered
during notification are appended to the list and are themselves invoked for
the same change, after all previously registered callbacks: from a list
of plain callbacks `l1`, one appender registering `news`, and plain
callbacks `l2`, the invocation order is `l1, a, l2, news`. -/
theorem runCbs_live_iteration (l1 : List Nat) (a : Nat) (news l2 : List Nat) :
    runCbs (l1.map CB.plain ++ CB.appender a news :: l2.map CB.plain)
      = l1 ++ a :: (l2 ++ news) := by
  unfold runCbs
  have hfuel : (l1.map CB.plain ++ CB.appender a news :: l2.map CB.plain).length
      + totalNews (l1.map CB.plain ++ CB.appender a news :: l2.map CB.plain)
      = l1.length + (l2.length + news.length + 1) := by
    simp [totalNews_append, totalNews, totalNews_map_plain]
    omega
  rw [hfuel, runCbsFuel_plains_front]
  congr 1
  simp only [runCbsFuel]
  congr 1
  rw [runCbsFuel_plains_front l2 news.length (news.map CB.plain)]
  congr 1
  have h2 : news.length = news.length + 0 := by omega
  rw [h2, show news.map CB.plain = news.map CB.plain ++ ([] : List CB) by simp,
    runCbsFuel_plains_front]
  simp [runCbsFuel]

/-- C8 counterexample: the protocol server's `get_param_info` handler
filters on the raw enum value (`"str"` for strings), so `param_type =
"string"` reports count 0 and index-out-of-range where `"str"` reports the
actual string parameter — the two type strings are *not* interchangeable in
that handler. -/
theorem get_param_info_ignores_string_alias :
    getParamInfoCount [⟨"local_ip", 2, ParameterType.string, 1, 1, true⟩] "str" = 1
    ∧ getParamInfoCount [⟨"local_ip", 2, ParameterType.string, 1, 1, true⟩] "string" = 0
    ∧ getParamInfoAt [⟨"local_ip", 2, ParameterType.string, 1, 1, true⟩] "string" 0 = none
    ∧ getParamInfoAt [⟨"local_ip", 2, ParameterType.string, 1, 1, true⟩] "str" 0
        = some ⟨"local_ip", 2, ParameterType.string, 1, 1, true⟩ := by
  exact ⟨by decide, by decide, by decide, by decide⟩

/-- C8 (amended): `Component.get_param_by_type_and_index` does treat
`"string"` and `"str"` as interchangeable (its `type_map` sends both to
`ParameterType.STRING`); the `get_param_info` handler does not. -/
theorem get_param_by_type_string_alias (params : List ParamMeta) (idx : Int) :
    getParamByTypeAndIndex params "string" idx
      = getParamByTypeAndIndex params "str" idx := by
  have h1 : typeMap (strLower "string") = some ParameterType.string := by decide
  have h2 : typeMap (strLower "str") = some ParameterType.string := by decide
  simp only [getParamByTypeAndIndex, h1, h2]

theorem stampActions_getElem (t : ℚ) :
    ∀ (ds : List ℚ) (cum : ℚ) (k : Nat), k < ds.length →
      (stampActions t ds cum)[k]? = some (t + cum + (ds.take k).sum / 1000) := by
  intro ds
  induction ds with
  | nil => intro cum k hk; simp at hk
  | cons d rest ih =>
      intro cum k hk
      cases k with
      | zero => simp [stampActions]
      | succ k =>
          simp only [stampActions, List.getElem?_cons_succ]
          rw [ih (cum + d / 1000) k (by simpa using hk)]
          rw [List.take_succ_cons, List.sum_cons, add_div]
          ring_nf

theorem popMin_ne_none (x : ℚ) (xs : List ℚ) : popMin (x :: xs) ≠ none := by
  simp only [popMin]
  split
  · simp
  · split <;> simp

theorem popMin_eq_none {q : List ℚ} (h : popMin q = none) : q = [] := by
  cases q with
  | nil => rfl
  | cons x xs => exact absurd h (popMin_ne_none x xs)

theorem popMin_mem : ∀ {q : List ℚ} {m : ℚ} {q' : List ℚ},
    popMin q = some (m, q') → m ∈ q := by
  intro q
  induction q with
  | nil => intro m q' h; simp [popMin] at h
  | cons x xs ih =>
      intro m q' h
      simp only [popMin] at h
      cases hx : popMin xs with
      | none =>
          rw [hx] at h
          simp only [Option.some.injEq, Prod.mk.injEq] at h
          obtain ⟨h1, _⟩ := h
          subst h1
          exact List.mem_cons_self x xs
      | some p =>
          obtain ⟨m', rest⟩ := p
          rw [hx] at h
          by_cases hxm : x ≤ m'
          · simp only [if_pos hxm, Option.some.injEq, Prod.mk.injEq] at h
            obtain ⟨h1, _⟩ := h
            subst h1
            exact List.mem_cons_self x xs
          · simp only [if_neg hxm, Option.some.injEq, Prod.mk.injEq] at h
            obtain ⟨h1, _⟩ := h
            subst h1
            exact List.mem_cons_of_mem x (ih hx)

theorem popMin_min : ∀ {q : List ℚ} {m : ℚ} {q' : List ℚ},
    popMin q = some (m, q') → ∀ x ∈ q, m ≤ x := by
  intro q
  induction q with
  | nil => intro m q' h; simp [popMin] at h
  | cons x xs ih =>
      intro m q' h y hy
      simp only [popMin] at h
      cases hx : popMin xs with
      | none =>
          rw [hx] at h
          simp only [Option.some.injEq, Prod.mk.injEq] at h
          obtain ⟨h1, _⟩ := h
          subst h1
          have hxs := popMin_eq_none hx
          subst hxs
          rcases List.mem_cons.mp hy with rfl | hmem
          · exact le_refl y
          · simp at hmem
      | some p =>
          obtain ⟨m', rest⟩ := p
          rw [hx] at h
          by_cases hxm : x ≤ m'
          · simp only [if_pos hxm, Option.some.injEq, Prod.mk.injEq] at h
            obtain ⟨h1, _⟩ := h
            subst h1
            rcases List.mem_cons.mp hy with rfl | hmem
            · exact le_refl y
            · exact le_trans hxm (ih hx y hmem)
          · simp only [if_neg hxm, Option.some.injEq, Prod.mk.injEq] at h
            obtain ⟨h1, _⟩ := h
            subst h1
            rcases List.mem_cons.mp hy with rfl | hmem
            · exact le_of_not_le hxm
            · exact ih hx y hmem

theorem popMin_rest_subset : ∀ {q : List ℚ} {m : ℚ} {q' : List ℚ},
    popMin q = some (m, q') → ∀ x ∈ q', x ∈ q := by
  intro q
  induction q with
  | nil => intro m q' h; simp [popMin] at h
  | cons x xs ih =>
      intro m q' h y hy
      simp only [popMin] at h
      cases hx : popMin xs with
      | none =>
          rw [hx] at h
          simp only [Option.some.injEq, Prod.mk.injEq] at h
          obtain ⟨_, h2⟩ := h
          subst h2
          exact List.mem_cons_of_mem x hy
      | some p =>
          obtain ⟨m', rest⟩ := p
          rw [hx] at h
          by_cases hxm : x ≤ m'
          · simp only [if_pos hxm, Option.some.injEq, Prod.mk.injEq] at h
            obtain ⟨_, h2⟩ := h
            subst h2
            exact List.mem_cons_of_mem x hy
          · simp only [if_neg hxm, Option.some.injEq, Prod.mk.injEq] at h
            obtain ⟨_, h2⟩ := h
            subst h2
            rcases List.mem_cons.mp hy with rfl | hmem
            · exact List.mem_cons_self y xs
            · exact List.mem_cons_of_mem x (ih hx y hmem)

theorem runQueue_le : ∀ (nows q : List ℚ) (m tm : ℚ),
    (m, tm) ∈ runQueue q nows → m ≤ tm := by
  intro nows
  induction nows with
  | nil => intro q m tm h; simp [runQueue] at h
  | cons now rest ih =>
      intro q m tm h
      simp only [runQueue] at h
      split at h
      · exact ih _ m tm h
      · split at h
        · rename_i hle
          rcases List.mem_cons.mp h with heq2 | hmem
          · simp only [Prod.mk.injEq] at heq2
            obtain ⟨h1, h2⟩ := heq2
            subst h1; subst h2
            exact hle
          · exact ih _ m tm hmem
        · exact ih _ m tm h

theorem runQueue_fst_mem : ∀ (nows q : List ℚ) (b : ℚ × ℚ),
    b ∈ runQueue q nows → b.1 ∈ q := by
  intro nows
  induction nows with
  | nil => intro q b h; simp [runQueue] at h
  | cons now rest ih =>
      intro q b h
      simp only [runQueue] at h
      split at h
      · exact ih _ b h
      · rename_i mn q' hx
        split at h
        · rcases List.mem_cons.mp h with heq | hmem
          · subst heq
            exact popMin_mem hx
          · exact popMin_rest_subset hx b.1 (ih q' b hmem)
        · exact ih _ b h

theorem runQueue_pairwise : ∀ (nows q : List ℚ),
    (runQueue q nows).Pairwise (fun a b => a.1 ≤ b.1) := by
  intro nows
  induction nows with
  | nil => intro q; simp [runQueue]
  | cons now rest ih =>
      intro q
      simp only [runQueue]
      split
      · exact ih q
      · rename_i mn q' hx
        split
        · refine List.Pairwise.cons ?_ (ih q')
          intro b hb
          exact popMin_min hx b.1 (popMin_rest_subset hx b.1 (runQueue_fst_mem rest q' b hb))
        · exact ih q

/-- C4: the k-th action of a batch enqueued at `t` with per-action delays
`d_0..d_{n-1}` (milliseconds) is stamped `execute_at = t + (Σ_{i<k} d_i)/1000`
(`wait_after_ms` on action i delays the *next* action); the processing loop
pops an action only when its stamp is `≤ now`, so every executed action runs
no earlier than its stamp, and executed stamps are non-decreasing. -/
theorem action_queue_stamping_and_order (t : ℚ) (ds : List ℚ) (q nows : List ℚ) :
    (∀ k, k < ds.length → (stamps t ds)[k]? = some (t + (ds.take k).sum / 1000))
    ∧ (∀ m tm, (m, tm) ∈ runQueue q nows → m ≤ tm)
    ∧ (runQueue q nows).Pairwise (fun a b => a.1 ≤ b.1) := by
  refine ⟨?_, fun m tm h => runQueue_le nows q m tm h, runQueue_pairwise nows q⟩
  intro k hk
  have := stampActions_getElem t ds 0 k hk
  simpa [stamps] using this

/-- Witness for C4: the second action of the batch `[500ms, 1000ms]`
enqueued at `t = 10` is stamped `10 + 500/1000`, and a concrete run pops in
stamp order no earlier than the stamps. -/
theorem action_queue_stamping_and_order_witness :
    (1 < ([(500 : ℚ), 1000] : List ℚ).length)
    ∧ (stamps 10 [(500 : ℚ), 1000])[1]?
        = some (10 + (([(500 : ℚ), 1000].take 1).sum) / 1000)
    ∧ (∀ m tm, (m, tm) ∈ runQueue [(3 : ℚ), 1] [(2 : ℚ), 4] → m ≤ tm) :=
  ⟨by decide,
   (action_queue_stamping_and_order 10 [(500 : ℚ), 1000] [] []).1 1 (by decide),
   (action_queue_stamping_and_order 10 [(500 : ℚ), 1000] [(3 : ℚ), 1] [(2 : ℚ), 4]).2.1⟩

theorem mem_listAdd {β : Type} [DecidableEq β] (a x : β) (l : List β) :
    a ∈ listAdd x l ↔ a ∈ l ∨ a = x := by
  unfold listAdd
  split
  · rename_i hx
    constructor
    · exact fun h => Or.inl h
    · rintro (h | rfl)
      · exact h
      · exact hx
  · simp

theorem mem_listDiscard {β : Type} [DecidableEq β] (a x : β) (l : List β) :
    a ∈ listDiscard x l ↔ a ∈ l ∧ a ≠ x := by
  simp [listDiscard, List.mem_filter]

theorem listAdd_ne_nil {β : Type} [DecidableEq β] (x : β) (l : List β) :
    listAdd x l ≠ [] := by
  unfold listAdd
  split
  · rename_i hx
    exact List.ne_nil_of_mem hx
  · simp

theorem listDiscard_idem {β : Type} [DecidableEq β] (x : β) (l : List β) :
    listDiscard x (listDiscard x l) = listDiscard x l := by
  simp [listDiscard, List.filter_filter]

theorem cleanupVal_idem (ws : WSock) (o : Option (List WSock)) :
    cleanupVal ws (cleanupVal ws o) = cleanupVal ws o := by
  cases o with
  | none => rfl
  | some t =>
      by_cases h : listDiscard ws t = []
      · simp [cleanupVal, h]
      · simp [cleanupVal, h, listDiscard_idem]

theorem cleanupVal_ne_nil (ws : WSock) (o : Option (List WSock)) (t : List WSock)
    (h : cleanupVal ws o = some t) : t ≠ [] := by
  cases o with
  | none => simp [cleanupVal] at h
  | some t' =>
      simp only [cleanupVal] at h
      split at h
      · cases h
      · rename_i hne
        cases h
        exact hne

theorem mem_getD_cleanupVal (ws w : WSock) (o : Option (List WSock)) :
    w ∈ (cleanupVal ws o).getD [] ↔ w ∈ o.getD [] ∧ w ≠ ws := by
  cases o with
  | none => simp [cleanupVal]
  | some t =>
      simp only [cleanupVal]
      split
      · rename_i hnil
        simp only [Option.getD_none]
        constructor
        · intro h; cases h
        · rintro ⟨h1, h2⟩
          have : w ∈ listDiscard ws t := (mem_listDiscard w ws t).mpr ⟨by simpa using h1, h2⟩
          rw [hnil] at this
          cases this
      · simp [mem_listDiscard]

theorem cleanupKey_apply (ws : WSock) (key : SKey) (m : SKey → Option (List WSock))
    (k : SKey) :
    cleanupKey ws key m k = if k = key then cleanupVal ws (m key) else m k := by
  unfold cleanupKey
  cases h : m key with
  | none =>
      by_cases hk : k = key
      · subst hk; simp [cleanupVal, h]
      · simp [hk]
  | some t =>
      simp [fupdate, h]

theorem foldl_cleanup_apply (ws : WSock) :
    ∀ (keys : List SKey) (m : SKey → Option (List WSock)) (k : SKey),
      (keys.foldl (fun m key => cleanupKey ws key m) m) k
        = if k ∈ keys then cleanupVal ws (m k) else m k := by
  intro keys
  induction keys with
  | nil => intro m k; simp
  | cons key0 rest ih =>
      intro m k
      simp only [List.foldl_cons]
      rw [ih]
      by_cases hk0 : k = key0
      · subst hk0
        rw [cleanupKey_apply]
        simp only [if_pos rfl]
        by_cases hkr : k ∈ rest
        · simp [hkr, cleanupVal_idem, List.mem_cons]
        · simp [hkr, List.mem_cons]
      · rw [cleanupKey_apply, if_neg hk0]
        by_cases hkr : k ∈ rest
        · simp [hkr, List.mem_cons, hk0]
        · simp [hkr, List.mem_cons, hk0]

theorem mem_getD_map_discard (key k : SKey) (o : Option (List SKey)) :
    k ∈ (o.map (listDiscard key)).getD [] ↔ k ∈ o.getD [] ∧ k ≠ key := by
  cases o <;> simp [mem_listDiscard]

theorem memSub_iff_getD (st : SubscriptionManager) (w : WSock) (k : SKey) :
    st.memSub w k ↔ k ∈ (st.subscriptions w).getD [] := by
  unfold SubscriptionManager.memSub
  cases h : st.subscriptions w <;> simp [h]

theorem memPS_iff_getD (st : SubscriptionManager) (w : WSock) (k : SKey) :
    st.memPS w k ↔ w ∈ (st.paramSubscribers k).getD [] := by
  unfold SubscriptionManager.memPS
  cases h : st.paramSubscribers k <;> simp [h]

theorem subscribe_subscriptions_apply (st : SubscriptionManager) (ws : WSock)
    (key : SKey) (w : WSock) :
    (st.subscribe ws key).subscriptions w
      = if w = ws then some (listAdd key ((st.subscriptions ws).getD []))
        else st.subscriptions w := by
  simp only [SubscriptionManager.subscribe]
  cases h : st.subscriptions ws <;> simp [fupdate, h]

theorem subscribe_paramSubscribers_apply (st : SubscriptionManager) (ws : WSock)
    (key : SKey) (k : SKey) :
    (st.subscribe ws key).paramSubscribers k
      = if k = key then some (listAdd ws ((st.paramSubscribers key).getD []))
        else st.paramSubscribers k := by
  simp only [SubscriptionManager.subscribe]
  cases h : st.paramSubscribers key <;> simp [fupdate, h]

theorem unsubscribe_subscriptions_apply (st : SubscriptionManager) (ws : WSock)
    (key : SKey) (w : WSock) :
    (st.unsubscribe ws key).subscriptions w
      = if w = ws then (st.subscriptions ws).map (listDiscard key)
        else st.subscriptions w := by
  simp only [SubscriptionManager.unsubscribe]
  cases h : st.subscriptions ws with
  | none =>
      by_cases hw : w = ws
      · subst hw; simp [h]
      · simp [hw]
  | some l => simp [fupdate, h]

theorem unsubscribe_paramSubscribers_apply (st : SubscriptionManager) (ws : WSock)
    (key : SKey) (k : SKey) :
    (st.unsubscribe ws key).paramSubscribers k
      = if k = key then cleanupVal ws (st.paramSubscribers key)
        else st.paramSubscribers k := by
  simp only [SubscriptionManager.unsubscribe]
  exact cleanupKey_apply ws key st.paramSubscribers k

theorem removeClient_subscriptions_apply (st : SubscriptionManager) (ws w : WSock) :
    (st.removeClient ws).subscriptions w
      = if w = ws then none else st.subscriptions w := by
  simp only [SubscriptionManager.removeClient]
  cases h : st.subscriptions ws with
  | none =>
      by_cases hw : w = ws
      · subst hw; simp [h]
      · simp [hw]
  | some keys => simp [fupdate, h]

theorem removeClient_paramSubscribers_apply (st : SubscriptionManager) (ws : WSock)
    (k : SKey) :
    (st.removeClient ws).paramSubscribers k
      = if k ∈ (st.subscriptions ws).getD [] then cleanupVal ws (st.paramSubscribers k)
        else st.paramSubscribers k := by
  simp only [SubscriptionManager.removeClient]
  cases h : st.subscriptions ws with
  | none => simp [h]
  | some keys =>
      simp only [h, Option.getD_some]
      exact foldl_cleanup_apply ws keys st.paramSubscribers k

theorem initial_inv : SubscriptionManager.initial.Inv := by
  constructor
  · intro w k
    simp [memSub_iff_getD, memPS_iff_getD, SubscriptionManager.initial]
  · intro k t ht
    simp [SubscriptionManager.initial] at ht

theorem subscribe_inv (st : SubscriptionManager) (ws : WSock) (key : SKey)
    (h : st.Inv) : (st.subscribe ws key).Inv := by
  obtain ⟨hiff, hne⟩ := h
  constructor
  · intro w k
    have hwk := hiff w k
    rw [memSub_iff_getD, memPS_iff_getD] at hwk
    rw [memSub_iff_getD, memPS_iff_getD, subscribe_subscriptions_apply,
      subscribe_paramSubscribers_apply]
    by_cases hw : w = ws
    · subst hw
      by_cases hk : k = key
      · subst hk
        rw [if_pos rfl, if_pos rfl]
        simp [mem_listAdd]
      · rw [if_pos rfl, if_neg hk]
        simp only [Option.getD_some, mem_listAdd]
        rw [or_iff_left hk]
        exact hwk
    · rw [if_neg hw]
      by_cases hk : k = key
      · subst hk
        rw [if_pos rfl]
        simp only [Option.getD_some, mem_listAdd]
        rw [or_iff_left hw]
        exact hwk
      · rw [if_neg hk]
        exact hwk
  · intro k t ht
    rw [subscribe_paramSubscribers_apply] at ht
    by_cases hk : k = key
    · rw [if_pos hk] at ht
      injection ht with ht
      exact ht ▸ listAdd_ne_nil ws _
    · rw [if_neg hk] at ht
      exact hne k t ht

theorem unsubscribe_inv (st : SubscriptionManager) (ws : WSock) (key : SKey)
    (h : st.Inv) : (st.unsubscribe ws key).Inv := by
  obtain ⟨hiff, hne⟩ := h
  constructor
  · intro w k
    have hwk := hiff w k
    rw [memSub_iff_getD, memPS_iff_getD] at hwk
    rw [memSub_iff_getD, memPS_iff_getD, unsubscribe_subscriptions_apply,
      unsubscribe_paramSubscribers_apply]
    by_cases hw : w = ws
    · subst hw
      by_cases hk : k = key
      · subst hk
        rw [if_pos rfl, if_pos rfl, mem_getD_cleanupVal, mem_getD_map_discard]
        constructor
        · rintro ⟨_, hkk⟩
          exact absurd rfl hkk
        · rintro ⟨_, hww⟩
          exact absurd rfl hww
      · rw [if_pos rfl, if_neg hk, mem_getD_map_discard]
        simp only [ne_eq, hk, not_false_iff, and_true]
        exact hwk
    · rw [if_neg hw]
      by_cases hk : k = key
      · subst hk
        rw [if_pos rfl, mem_getD_cleanupVal]
        simp only [ne_eq, hw, not_false_iff, and_true]
        exact hwk
      · rw [if_neg hk]
        exact hwk
  · intro k t ht
    rw [unsubscribe_paramSubscribers_apply] at ht
    by_cases hk : k = key
    · rw [if_pos hk] at ht
      exact cleanupVal_ne_nil ws _ t ht
    · rw [if_neg hk] at ht
      exact hne k t ht

theorem removeClient_inv (st : SubscriptionManager) (ws : WSock)
    (h : st.Inv) : (st.removeClient ws).Inv := by
  obtain ⟨hiff, hne⟩ := h
  constructor
  · intro w k
    have hwk := hiff w k
    rw [memSub_iff_getD, memPS_iff_getD] at hwk
    rw [memSub_iff_getD, memPS_iff_getD, removeClient_subscriptions_apply,
      removeClient_paramSubscribers_apply]
    by_cases hw : w = ws <;> by_cases hmemk : k ∈ (st.subscriptions ws).getD []
    · -- w = ws, k was subscribed: both sides become False
      subst hw
      simp only [if_pos rfl, if_pos hmemk, mem_getD_cleanupVal]
      simp
    · -- w = ws, k not subscribed: RHS is old memPS, false by the old invariant
      subst hw
      have hps := hiff w k
      rw [memSub_iff_getD, memPS_iff_getD] at hps
      rw [if_pos rfl, if_neg hmemk]
      simp only [Option.getD_none]
      exact ⟨fun hmem => absurd hmem (List.not_mem_nil k),
        fun hmem => absurd (hps.mpr hmem) hmemk⟩
    · simp only [if_neg hw, if_pos hmemk, mem_getD_cleanupVal]
      tauto
    · simp only [if_neg hw, if_neg hmemk]
      exact hwk
  · intro k t ht
    rw [removeClient_paramSubscribers_apply] at ht
    by_cases hmemk : k ∈ (st.subscriptions ws).getD []
    · rw [if_pos hmemk] at ht
      exact cleanupVal_ne_nil ws _ t ht
    · rw [if_neg hmemk] at ht
      exact hne k t ht

/-- C10: across every sequence of `subscribe`, `unsubscribe` and
`remove_client` operations from the initial state, the `SubscriptionManager`
maintains bidirectional consistency — `w ∈ _param_subscribers[(param_id,
row, col)]` iff `(param_id, row, col) ∈ _subscriptions[w]` — and
`_param_subscribers` never maps a key to an empty set. -/
theorem subscription_manager_invariant (ops : List SubOp) :
    (SubscriptionManager.applyOps ops).Inv := by
  have hstep : ∀ (ops2 : List SubOp) (st : SubscriptionManager), st.Inv →
      (ops2.foldl SubscriptionManager.applyOp st).Inv := by
    intro ops2
    induction ops2 with
    | nil => intro st hst; exact hst
    | cons op rest ih =>
        intro st hst
        simp only [List.foldl_cons]
        apply ih
        cases op with
        | sub ws key => exact subscribe_inv st ws key hst
        | unsub ws key => exact unsubscribe_inv st ws key hst
        | remove ws => exact removeClient_inv st ws hst
  exact hstep ops SubscriptionManager.initial initial_inv

end SmartHome
